import Mathlib

/-!
Verification of the snarkVM cast instruction and ledger record query.

This development shallowly embeds the Rust sources
`console/program/src/function/instruction/operation/cast.rs`,
`console/program/src/function/instruction/opcode/mod.rs` and
`vm/compiler/src/ledger/find.rs` into Lean 4 and proves properties about
them.  Identifiers and field names are modelled as natural numbers; machine
integers are modelled as `Nat` with explicit bit reasoning where the source
inspects bits.  Fallible Rust code (`Result`) is modelled with `Except`; a
Rust panic (as caused by `itertools::zip_eq` on length mismatch, or by
unbounded recursion) is modelled by a distinguished `panicked` outcome.
-/

namespace SnarkVM

/-- Kinds of literals (a representative subset of the snarkVM literal kinds
used by the cast instruction: addresses, 64-bit unsigned integers, booleans
and field elements). -/
inductive LiteralType where
  | address
  | u64
  | boolean
  | field
deriving DecidableEq

/-- Runtime literal values.  `u64 v` carries the integer value of a Rust
`u64` (so callers are expected to keep `v < 2^64`); `address`/`field`
payloads are abstract numeric identifiers. -/
inductive Literal where
  | address (a : Nat)
  | u64 (v : Nat)
  | boolean (b : Bool)
  | field (f : Nat)
deriving DecidableEq

/-- The literal type of a literal value. -/
def litTypeOf : Literal → LiteralType
  | .address _ => .address
  | .u64 _ => .u64
  | .boolean _ => .boolean
  | .field _ => .field

/-- Runtime plaintext values: a literal, or an interface aggregate holding an
ordered (insertion-ordered, as `IndexMap`) list of named members. -/
inductive Plaintext where
  | literal (l : Literal)
  | interface (members : List (Nat × Plaintext))

/-- Plaintext type: a literal kind or a named interface. -/
inductive PlaintextType where
  | literal (t : LiteralType)
  | interface (name : Nat)
deriving DecidableEq

/-- Value type of a cast target: `Constant`/`Public`/`Private` plaintext, or
a named record (mirrors `ValueType` in the source; `const`/`pub`/`priv`
stand for the source's `Constant`/`Public`/`Private`). -/
inductive ValueType where
  | const (t : PlaintextType)
  | pub (t : PlaintextType)
  | priv (t : PlaintextType)
  | record (name : Nat)
deriving DecidableEq

/-- Register type: plaintext type or record name (mirrors `RegisterType`). -/
inductive RegisterType where
  | plaintext (t : PlaintextType)
  | record (name : Nat)
deriving DecidableEq

/-- Entry type of a record-type entry (mirrors `EntryType`). -/
inductive EntryType where
  | const (t : PlaintextType)
  | pub (t : PlaintextType)
  | priv (t : PlaintextType)
deriving DecidableEq

/-- The plaintext type inside an entry type.  Mirrors the source expression
`RegisterType::from(ValueType::from(*entry_type))`, which strips the
visibility and yields `RegisterType::Plaintext` of the inner type. -/
def EntryType.plainType : EntryType → PlaintextType
  | .const t => t
  | .pub t => t
  | .priv t => t

/-- Record ownership value (mirrors `Owner<N, Plaintext<N>>`): a public
address, or a private plaintext. -/
inductive Owner where
  | pub (a : Nat)
  | priv (p : Plaintext)

/-- Record balance value (mirrors `Balance<N, Plaintext<N>>`). -/
inductive Balance where
  | pub (v : Nat)
  | priv (p : Plaintext)

/-- One named record entry with its visibility (mirrors `Entry`). -/
inductive Entry where
  | const (p : Plaintext)
  | pub (p : Plaintext)
  | priv (p : Plaintext)

/-- A constructed record value (mirrors `Record<N, Plaintext<N>>`). -/
structure RecordValue where
  owner : Owner
  balance : Balance
  entries : List (Nat × Entry)

/-- A runtime stack value (mirrors `StackValue`). -/
inductive StackValue where
  | plaintext (p : Plaintext)
  | record (r : RecordValue)

/-- An interface definition: `name -> plaintext type` members, in
declaration order (mirrors `Interface`). -/
structure InterfaceDef where
  members : List (Nat × PlaintextType)

/-- A record type definition: owner visibility, balance visibility and the
declared `name -> entry type` entries, in declaration order (mirrors
`RecordType`; `ownerPublic` is `record_type.owner().is_public()`). -/
structure RecordDef where
  ownerPublic : Bool
  balancePublic : Bool
  entries : List (Nat × EntryType)

/-- A program's static type registry: named interfaces and records. -/
structure Program where
  interfaces : List (Nat × InterfaceDef)
  records : List (Nat × RecordDef)

/-- Ordered-association lookup (first match), as used for registry and
register lookups. -/
def lookupId {α : Type} : List (Nat × α) → Nat → Option α
  | [], _ => none
  | (k, v) :: rest, n => if k = n then some v else lookupId rest n

/-- Insertion into an insertion-ordered map, with `IndexMap::insert`
semantics: an existing key is overwritten in place, a new key is appended. -/
def indexInsert {α : Type} : List (Nat × α) → Nat → α → List (Nat × α)
  | [], k, v => [(k, v)]
  | (k', v') :: rest, k, v =>
      if k' = k then (k, v) :: rest else (k', v') :: indexInsert rest k v

/-- An operand of an instruction: a register reference or a literal
constant (mirrors `Operand`). -/
inductive Operand where
  | register (r : Nat)
  | literal (l : Literal)
deriving DecidableEq

/-- The cast instruction: operands, destination register and target value
type (mirrors the `Cast` struct; registers are modelled by their locator). -/
structure Cast where
  operands : List Operand
  destination : Nat
  value_type : ValueType
deriving DecidableEq

/-- The register stack: its program (type registry) and the values assigned
to registers so far.  Modelled from the spec: the `Stack` type itself lives
outside the extracted sources; per the spec it stores runtime values with
type-checked load/store and exposes the program's type registry. -/
structure Stack where
  program : Program
  registers : List (Nat × StackValue)

/-- Error taxonomy of the evaluation and type-inference paths, following
the spec's names for the `bail!`/`ensure!` sites of the source. -/
inductive EvalErr where
  | loadError
  | unsupportedCastError
  | arityError
  | lookupError
  | typeMismatchError
  | illegalCastError
  | invalidValueError
  | storeError
deriving DecidableEq

/-- A failure of a fallible step: a propagated error (`Err(..)` in Rust) or
a Rust panic (as raised by `itertools::zip_eq` on iterators of unequal
length). -/
inductive Fail where
  | err (e : EvalErr)
  | panicked
deriving DecidableEq

/-- Modelled from the spec: `Stack.load(operand) -> StackValue | Error`.
A register operand resolves to the register's current value (an unresolved
register is an error); a literal operand resolves to a plaintext literal. -/
def Stack.load (s : Stack) : Operand → Except EvalErr StackValue
  | .register r =>
      match lookupId s.registers r with
      | some v => .ok v
      | none => .error .loadError
  | .literal l => .ok (.plaintext (.literal l))

/-- Loads all operands in order, propagating the first failure (mirrors the
`try_for_each` loop of `Cast::evaluate`). -/
def loadAll (s : Stack) : List Operand → Except EvalErr (List StackValue)
  | [] => .ok []
  | o :: os =>
      match s.load o with
      | .error e => .error e
      | .ok v =>
          match loadAll s os with
          | .error e => .error e
          | .ok vs => .ok (v :: vs)

/-- Registry lookup of an interface (mirrors `stack.get_interface` /
`program.get_interface`; a missing definition is a `LookupError`). -/
def Program.get_interface (p : Program) (name : Nat) : Except EvalErr InterfaceDef :=
  match lookupId p.interfaces name with
  | some idef => .ok idef
  | none => .error .lookupError

/-- Registry lookup of a record type (mirrors `stack.get_record` /
`program.get_record`). -/
def Program.get_record (p : Program) (name : Nat) : Except EvalErr RecordDef :=
  match lookupId p.records name with
  | some rdef => .ok rdef
  | none => .error .lookupError

/-- Modelled from the spec: the structural check behind
`Stack.matches_register(value, expected_type)`.  A plaintext literal matches
the corresponding literal type; an interface value matches an interface name
when the program defines that interface and the members match positionally
(names equal, values matching the member types recursively).  The `fuel`
argument bounds recursion through interface definitions; callers pass a fuel
larger than the number of interface definitions, so it is exhausted only on
(unsupported) cyclic registries. -/
def matchesP (prog : Program) : Nat → Plaintext → PlaintextType → Bool
  | _, .literal l, .literal t => litTypeOf l == t
  | fuel + 1, .interface ms, .interface n =>
      match lookupId prog.interfaces n with
      | some idef =>
          (ms.length == idef.members.length) &&
          (List.zip ms idef.members).all
            (fun q => (q.1.1 == q.2.1) && matchesP prog fuel q.1.2 q.2.2)
      | none => false
  | _, _, _ => false

/-- Modelled from the spec: `Stack.matches_register(value, expected_type)`;
a mismatch is signalled as a `TypeMismatchError` (the call sites in
`Cast::evaluate` propagate its error with `?`). -/
def Stack.matches_register (s : Stack) (v : StackValue) (rt : RegisterType) : Except EvalErr Unit :=
  match v, rt with
  | .plaintext p, .plaintext t =>
      if matchesP s.program (s.program.interfaces.length + 1) p t then .ok ()
      else .error .typeMismatchError
  | _, _ => .error .typeMismatchError

/-- Modelled from the spec: `Stack.store(register, value) -> () | Error`.
A double write to a register is an error (registers are written at most
once per execution); on failure the stack is unchanged. -/
def Stack.store (s : Stack) (r : Nat) (v : StackValue) : Except EvalErr Stack :=
  match lookupId s.registers r with
  | some _ => .error .storeError
  | none => .ok { s with registers := s.registers ++ [(r, v)] }

/-- Outcome of evaluating an instruction against a stack: success with the
updated stack, a propagated error leaving the stack in the given state, or a
panic leaving the stack in the given state. -/
inductive EvalResult where
  | ok (s : Stack)
  | err (e : EvalErr) (s : Stack)
  | panicked (s : Stack)

/-- The member-building loop of the interface arm of `Cast::evaluate`:
`for (member, (member_name, member_type)) in inputs.iter().zip_eq(interface.members())`.
Pairs are processed in order; a record input is an illegal cast, a failed
`matches_register` propagates, and exhaustion of one list before the other
is a panic (`itertools::zip_eq` panics on iterators of unequal length). -/
def buildMembers (s : Stack) (acc : List (Nat × Plaintext)) :
    List StackValue → List (Nat × PlaintextType) → Except Fail (List (Nat × Plaintext))
  | [], [] => .ok acc
  | input :: inputs, (mname, mtype) :: rest =>
      match input with
      | .record _ => .error (.err .illegalCastError)
      | .plaintext p =>
          match s.matches_register (.plaintext p) (.plaintext mtype) with
          | .error e => .error (.err e)
          | .ok _ => buildMembers s (indexInsert acc mname p) inputs rest
  | _, _ => .error .panicked

/-- The interface (plaintext-target) arm of `Cast::evaluate`: a literal
target is unsupported, empty inputs are an arity error, the interface is
looked up and the members are built positionally. -/
def castPlaintext (s : Stack) (pt : PlaintextType) (inputs : List StackValue) :
    Except Fail StackValue :=
  match pt with
  | .literal _ => .error (.err .unsupportedCastError)
  | .interface iname =>
      if inputs.isEmpty then .error (.err .arityError)
      else
        match s.program.get_interface iname with
        | .error e => .error (.err e)
        | .ok idef =>
            match buildMembers s [] inputs idef.members with
            | .error f => .error f
            | .ok members => .ok (.plaintext (.interface members))

/-- True when bits 52..63 of the balance are all zero; mirrors
`balance.to_bits_le()[52..].iter().all(|bit| !bit)` on a `u64`. -/
def balanceBitsOk (b : Nat) : Bool :=
  (List.range 12).all (fun i => !(b.testBit (52 + i)))

/-- The owner initialisation of the record arm of `Cast::evaluate`:
`inputs[0]` must be an address literal, wrapped per the record type's owner
visibility; anything else is "Invalid record owner". -/
def ownerOf (rd : RecordDef) : StackValue → Except Fail Owner
  | .plaintext (.literal (.address a)) =>
      .ok (if rd.ownerPublic then .pub a else .priv (.literal (.address a)))
  | _ => .error (.err .invalidValueError)

/-- The balance initialisation of the record arm of `Cast::evaluate`:
`inputs[1]` must be a `u64` literal with bits 52..63 zero, wrapped per the
record type's balance visibility; a set high bit or a non-`u64` input is an
invalid value. -/
def balanceOf (rd : RecordDef) : StackValue → Except Fail Balance
  | .plaintext (.literal (.u64 b)) =>
      if balanceBitsOk b then
        .ok (if rd.balancePublic then .pub b else .priv (.literal (.u64 b)))
      else .error (.err .invalidValueError)
  | _ => .error (.err .invalidValueError)

/-- The entry-building loop of the record arm of `Cast::evaluate`:
`for (entry, (entry_name, entry_type)) in inputs.iter().zip_eq(record_type.entries())`.
Note that the source iterates over all of `inputs` (including the owner
input at index 0 and the balance input at index 1), not over
`inputs[2..]`.  Each paired input must be a plaintext matching
`RegisterType::from(ValueType::from(entry_type))` and is wrapped per the
entry's declared visibility; unequal lengths panic (`zip_eq`). -/
def buildEntries (s : Stack) (acc : List (Nat × Entry)) :
    List StackValue → List (Nat × EntryType) → Except Fail (List (Nat × Entry))
  | [], [] => .ok acc
  | input :: inputs, (ename, etype) :: rest =>
      match input with
      | .record _ => .error (.err .illegalCastError)
      | .plaintext p =>
          match s.matches_register (.plaintext p) (.plaintext etype.plainType) with
          | .error e => .error (.err e)
          | .ok _ =>
              let entry : Entry :=
                match etype with
                | .const _ => .const p
                | .pub _ => .pub p
                | .priv _ => .priv p
              buildEntries s (indexInsert acc ename entry) inputs rest
  | _, _ => .error .panicked

/-- Modelled from the spec: `Record::new(owner, balance, entries)`; record
construction fails when structural invariants are violated (duplicate entry
names), signalled as an `InvalidValueError`. -/
def recordNew (o : Owner) (b : Balance) (es : List (Nat × Entry)) :
    Except EvalErr RecordValue :=
  if (es.map Prod.fst).Nodup then .ok { owner := o, balance := b, entries := es }
  else .error .invalidValueError

/-- The record arm of `Cast::evaluate`: at least two inputs, record-type
lookup, owner from `inputs[0]`, balance from `inputs[1]`, then the entry
loop over all inputs, and record construction. -/
def castRecord (s : Stack) (rname : Nat) (inputs : List StackValue) :
    Except Fail StackValue :=
  match inputs with
  | i0 :: i1 :: _ =>
      match s.program.get_record rname with
      | .error e => .error (.err e)
      | .ok rd =>
          match ownerOf rd i0 with
          | .error f => .error f
          | .ok owner =>
              match balanceOf rd i1 with
              | .error f => .error f
              | .ok balance =>
                  match buildEntries s [] inputs rd.entries with
                  | .error f => .error f
                  | .ok entries =>
                      match recordNew owner balance entries with
                      | .error e => .error (.err e)
                      | .ok record => .ok (.record record)
  | _ => .error (.err .arityError)

/-- The value computed by `Cast::evaluate` before the final store: loads all
operands, then dispatches on the target value type. -/
def evalCore (c : Cast) (s : Stack) : Except Fail StackValue :=
  match loadAll s c.operands with
  | .error e => .error (.err e)
  | .ok inputs =>
      match c.value_type with
      | .const pt => castPlaintext s pt inputs
      | .pub pt => castPlaintext s pt inputs
      | .priv pt => castPlaintext s pt inputs
      | .record rname => castRecord s rname inputs

/-- `Cast::evaluate(stack)`: computes the casted value and stores it into
the destination register; any failure leaves the stack as it was. -/
def evaluate (c : Cast) (s : Stack) : EvalResult :=
  match evalCore c s with
  | .error (.err e) => .err e s
  | .error .panicked => .panicked s
  | .ok v =>
      match s.store c.destination v with
      | .error e => .err e s
      | .ok s' => .ok s'

/-- The interface arm of the type-checking loop of `Cast::output_type`:
`for ((_, member_type), input_type) in interface.members().iter().zip_eq(input_types)`.
A plaintext input type must equal the member type, a record input type is a
mismatch, and unequal lengths panic (`zip_eq`). -/
def checkMemberTypes : List (Nat × PlaintextType) → List RegisterType → Except Fail Unit
  | [], [] => .ok ()
  | (_, mtype) :: ms, it :: its =>
      match it with
      | .plaintext pt =>
          if mtype = pt then checkMemberTypes ms its
          else .error (.err .typeMismatchError)
      | .record _ => .error (.err .typeMismatchError)
  | _, _ => .error .panicked

/-- The record arm of the type-checking loop of `Cast::output_type`:
`for ((_, entry_type), input_type) in record.entries().iter().zip_eq(input_types)`.
Note that the source zips the record's declared entries against all of
`input_types` (there is no skipping of the first two input types). -/
def checkEntryTypes : List (Nat × EntryType) → List RegisterType → Except Fail Unit
  | [], [] => .ok ()
  | (_, etype) :: es, it :: its =>
      match it with
      | .plaintext pt =>
          if etype.plainType = pt then checkEntryTypes es its
          else .error (.err .typeMismatchError)
      | .record _ => .error (.err .typeMismatchError)
  | _, _ => .error .panicked

/-- The register type of a value type, mirroring
`RegisterType::from(self.value_type)` at the end of `Cast::output_type`. -/
def ValueType.toRegisterType : ValueType → RegisterType
  | .const t => .plaintext t
  | .pub t => .plaintext t
  | .priv t => .plaintext t
  | .record n => .record n

/-- `Cast::output_type(program, input_types)`: checks the input-type count
against the operand count (`ArityError`), then dispatches on the target
value type; a literal target is unsupported, registry lookups may fail, and
the member/entry loops type-check positionally. -/
def output_type (c : Cast) (program : Program) (input_types : List RegisterType) :
    Except Fail RegisterType :=
  if input_types.length ≠ c.operands.length then .error (.err .arityError)
  else
    match c.value_type with
    | .const pt | .pub pt | .priv pt =>
        match pt with
        | .literal _ => .error (.err .unsupportedCastError)
        | .interface iname =>
            match program.get_interface iname with
            | .error e => .error (.err e)
            | .ok idef =>
                match checkMemberTypes idef.members input_types with
                | .error f => .error f
                | .ok _ => .ok c.value_type.toRegisterType
    | .record rname =>
        match program.get_record rname with
        | .error e => .error (.err e)
        | .ok rd =>
            match checkEntryTypes rd.entries input_types with
            | .error f => .error f
            | .ok _ => .ok c.value_type.toRegisterType

/-- The opcode type (mirrors `Opcode`): a literal operation carrying its
mnemonic, or the cast operation. -/
inductive OpcodeT where
  | literalOp (mnemonic : String)
  | cast

/-- Outcome of a formatting attempt: a produced string, a formatter error
(`fmt::Error`), or divergence (the recursion never returns; the `fuel`
argument of the formatting functions bounds the recursion depth, and a
formatting that exhausts every fuel never terminates). -/
inductive FmtResult where
  | ok (s : String)
  | fmtError
  | diverged

/-- `Display for Opcode`: a literal opcode prints its mnemonic; for
`Opcode::Cast` the source executes `write!(f, "{}", *self)`, where `*self`
is the `Opcode` itself, so formatting `Opcode::Cast` re-enters
`Display::fmt` on the very same value.  The recursion is modelled with
fuel: every recursive step consumes one unit, and exhausted fuel marks
divergence. -/
def opcodeFmt : Nat → OpcodeT → FmtResult
  | _, .literalOp m => .ok m
  | 0, .cast => .diverged
  | fuel + 1, .cast => opcodeFmt fuel .cast

/-- Modelled from the spec: the rendering of an operand (its own `Display`
implementation lives outside the extracted sources); a register prints as
`r<locator>`, a literal as its value text. -/
def operandText : Operand → String
  | .register r => "r" ++ toString r
  | .literal (.address a) => "aleo" ++ toString a
  | .literal (.u64 v) => toString v ++ "u64"
  | .literal (.boolean b) => toString b
  | .literal (.field f) => toString f ++ "field"

/-- Modelled from the spec: the rendering of a plaintext type. -/
def plaintextTypeText : PlaintextType → String
  | .literal .address => "address"
  | .literal .u64 => "u64"
  | .literal .boolean => "boolean"
  | .literal .field => "field"
  | .interface n => "i" ++ toString n

/-- Modelled from the spec: the rendering of a value type. -/
def valueTypeText : ValueType → String
  | .const t => plaintextTypeText t ++ ".constant"
  | .pub t => plaintextTypeText t ++ ".public"
  | .priv t => plaintextTypeText t ++ ".private"
  | .record n => "r" ++ toString n ++ ".record"

/-- `Display for Cast`: an operand count of zero or above `maxOperands`
is a formatter error (`fmt::Error`); otherwise the opcode is printed first
(followed by a space), then each operand followed by a space, then
`into <destination> as <value type>`.  Since printing the opcode requires
formatting `Opcode::Cast`, the fuel is threaded into `opcodeFmt`. -/
def castFmt (fuel : Nat) (maxOperands : Nat) (c : Cast) : FmtResult :=
  if c.operands.length = 0 ∨ c.operands.length > maxOperands then .fmtError
  else
    match opcodeFmt fuel .cast with
    | .ok op =>
        .ok (op ++ " " ++ String.join (c.operands.map (fun o => operandText o ++ " ")) ++
             "into r" ++ toString c.destination ++ " as " ++ valueTypeText c.value_type)
    | .fmtError => .fmtError
    | .diverged => .diverged

/-- Modelled from the spec: a self-delimiting little-endian variable-length
encoding of a natural number (seven value bits per byte, high bit set on
continuation), used for the payloads of the collaborator encodings
(operands, registers, value types), whose exact layouts live outside the
extracted sources. -/
def encodeNatGo : Nat → Nat → List Nat
  | 0, n => [n]
  | fuel + 1, n =>
      if n < 128 then [n] else (n % 128 + 128) :: encodeNatGo fuel (n / 128)

/-- Modelled from the spec: the variable-length encoding, with enough fuel
for any value (`n` itself always suffices, as each step divides by 128). -/
def encodeNat (n : Nat) : List Nat :=
  encodeNatGo n n

/-- Modelled from the spec: the decoder matching `encodeNat`; returns the
value and the remaining bytes. -/
def decodeNat : List Nat → Option (Nat × List Nat)
  | [] => none
  | b :: rest =>
      if b < 128 then some (b, rest)
      else
        match decodeNat rest with
        | some (m, rest') => some (b - 128 + 128 * m, rest')
        | none => none

/-- Modelled from the spec: the encoding of a literal (tag byte, then
payload). -/
def encodeLiteral : Literal → List Nat
  | .address a => 0 :: encodeNat a
  | .u64 v => 1 :: encodeNat v
  | .boolean b => [2, if b then 1 else 0]
  | .field f => 3 :: encodeNat f

/-- Modelled from the spec: the decoder matching `encodeLiteral`. -/
def decodeLiteral : List Nat → Option (Literal × List Nat)
  | 0 :: rest => (decodeNat rest).map (fun q => (.address q.1, q.2))
  | 1 :: rest => (decodeNat rest).map (fun q => (.u64 q.1, q.2))
  | 2 :: b :: rest => some (.boolean (b ≠ 0), rest)
  | 3 :: rest => (decodeNat rest).map (fun q => (.field q.1, q.2))
  | _ => none

/-- Modelled from the spec: `Operand`'s own encoding (tag byte, then a
register locator or a literal). -/
def encodeOperand : Operand → List Nat
  | .register r => 0 :: encodeNat r
  | .literal l => 1 :: encodeLiteral l

/-- Modelled from the spec: the decoder matching `encodeOperand`. -/
def decodeOperand : List Nat → Option (Operand × List Nat)
  | 0 :: rest => (decodeNat rest).map (fun q => (.register q.1, q.2))
  | 1 :: rest => (decodeLiteral rest).map (fun q => (.literal q.1, q.2))
  | _ => none

/-- Reads exactly `n` operands, in order (mirrors the
`for _ in 0..num_operands` loop of `FromBytes for Cast`). -/
def decodeOperands : Nat → List Nat → Option (List Operand × List Nat)
  | 0, rest => some ([], rest)
  | n + 1, rest =>
      match decodeOperand rest with
      | none => none
      | some (o, rest') =>
          match decodeOperands n rest' with
          | none => none
          | some (os, rest'') => some (o :: os, rest'')

/-- Modelled from the spec: the tagged encoding of a plaintext type. -/
def encodePlaintextType : PlaintextType → List Nat
  | .literal .address => [0, 0]
  | .literal .u64 => [0, 1]
  | .literal .boolean => [0, 2]
  | .literal .field => [0, 3]
  | .interface n => 1 :: encodeNat n

/-- Modelled from the spec: the decoder matching `encodePlaintextType`. -/
def decodePlaintextType : List Nat → Option (PlaintextType × List Nat)
  | 0 :: 0 :: rest => some (.literal .address, rest)
  | 0 :: 1 :: rest => some (.literal .u64, rest)
  | 0 :: 2 :: rest => some (.literal .boolean, rest)
  | 0 :: 3 :: rest => some (.literal .field, rest)
  | 1 :: rest => (decodeNat rest).map (fun q => (.interface q.1, q.2))
  | _ => none

/-- Modelled from the spec: the tagged encoding of a value type. -/
def encodeValueType : ValueType → List Nat
  | .const t => 0 :: encodePlaintextType t
  | .pub t => 1 :: encodePlaintextType t
  | .priv t => 2 :: encodePlaintextType t
  | .record n => 3 :: encodeNat n

/-- Modelled from the spec: the decoder matching `encodeValueType`. -/
def decodeValueType : List Nat → Option (ValueType × List Nat)
  | 0 :: rest => (decodePlaintextType rest).map (fun q => (.const q.1, q.2))
  | 1 :: rest => (decodePlaintextType rest).map (fun q => (.pub q.1, q.2))
  | 2 :: rest => (decodePlaintextType rest).map (fun q => (.priv q.1, q.2))
  | 3 :: rest => (decodeNat rest).map (fun q => (.record q.1, q.2))
  | _ => none

/-- `ToBytes for Cast` (`write_le`): an operand count of zero or above
`maxOperands` is an error before anything is written; otherwise the count
is written as one byte (`as u8`), then the operands, the destination
register and the value type. -/
def write_le (maxOperands : Nat) (c : Cast) : Except Unit (List Nat) :=
  if c.operands.length = 0 ∨ c.operands.length > maxOperands then .error ()
  else
    .ok (c.operands.length % 256 ::
         ((c.operands.map encodeOperand).flatten ++
          encodeNat c.destination ++ encodeValueType c.value_type))

/-- `FromBytes for Cast` (`read_le`): reads the one-byte operand count and
rejects zero or above-`maxOperands` counts, then reads that many operands,
the destination register and the value type, returning the instruction and
the remaining bytes. -/
def read_le (maxOperands : Nat) : List Nat → Except Unit (Cast × List Nat)
  | [] => .error ()
  | b :: rest =>
      if b = 0 ∨ b > maxOperands then .error ()
      else
        match decodeOperands b rest with
        | none => .error ()
        | some (ops, rest1) =>
            match decodeNat rest1 with
            | none => .error ()
            | some (dst, rest2) =>
                match decodeValueType rest2 with
                | none => .error ()
                | some (vt, rest3) =>
                    .ok ({ operands := ops, destination := dst, value_type := vt }, rest3)

/-- Encoding followed by decoding, for stating the round-trip property. -/
def writeThenRead (maxOperands : Nat) (c : Cast) : Except Unit (Cast × List Nat) :=
  match write_le maxOperands c with
  | .error e => .error e
  | .ok bs => read_le maxOperands bs

/-- Modelled from the spec: the cryptographic collaborator primitives used
by `Ledger::find_records` (domain-separated hash, hash-to-group,
hash-to-scalar, BHP commitment, curve arithmetic).  Field and group
elements are modelled as natural numbers; each fallible primitive is an
abstract function that may fail. -/
structure CryptoEnv where
  hash_psd2 : Nat → Nat → Except Unit Nat
  hash_to_group_psd2 : Nat → Nat → Except Unit Nat
  hash_to_scalar_psd2 : Nat → Nat → Except Unit Nat
  commit_bhp512 : List Bool → Nat → Except Unit Nat
  serial_number_domain : Nat
  group_mul : Nat → Nat → Nat
  mul_by_cofactor_x : Nat → Nat
  to_bits_le : Nat → Nat → List Bool

/-- The tag helper of `find_records`:
`tag(sk_tag, commitment) = N::hash_psd2(&[sk_tag, commitment])`. -/
def tagOf (env : CryptoEnv) (sk_tag commitment : Nat) : Except Unit Nat :=
  env.hash_psd2 sk_tag commitment

/-- The serial-number helper of `find_records`: hash the commitment to a
group element `h`, multiply by `sk_sig`, clear the cofactor and take the
x-coordinate, hash to a scalar nonce, and commit. -/
def serialNumberOf (env : CryptoEnv) (sk_sig commitment : Nat) : Except Unit Nat :=
  match env.hash_to_group_psd2 env.serial_number_domain commitment with
  | .error e => .error e
  | .ok h =>
      let gamma := env.group_mul h sk_sig
      match env.hash_to_scalar_psd2 env.serial_number_domain (env.mul_by_cofactor_x gamma) with
      | .error e => .error e
      | .ok sn_nonce =>
          env.commit_bhp512 (env.to_bits_le env.serial_number_domain commitment) sn_nonce

/-- The filter selecting which records `find_records` yields (mirrors
`RecordsFilter`; the slow variants carry the private key, modelled by its
`sk_sig`). -/
inductive RecordsFilter where
  | all
  | slowSpent (sk_sig : Nat)
  | slowUnspent (sk_sig : Nat)
  | spent
  | unspent

/-- The ledger state visible to `find_records`: the crypto primitives, the
record source as an ordered list of `(commitment, record handle)` pairs,
and the two spent indexes.  Modelled from the spec: the record source and
index probes are collaborator interfaces
(`RecordSource.iter`, `SpentIndex.contains_serial_number/contains_tag`). -/
structure Ledger where
  crypto : CryptoEnv
  records : List (Nat × Nat)
  contains_serial_number : Nat → Except Unit Bool
  contains_tag : Nat → Except Unit Bool

/-- Modelled from the spec: the view-key-side derivations used by
`find_records` — `view_key.to_address()` (infallible),
`GraphKey::try_from(view_key).map(..sk_tag())` (fallible), and the
per-record `record.is_owner(address, view_key)` and
`record.decrypt(view_key)` calls (over the record handle; the address and
view key are fixed by this environment). -/
structure ViewKeyEnv where
  graph_key_sk_tag : Except Unit Nat
  is_owner : Nat → Bool
  decrypt : Nat → Except Unit Nat

/-- The filter step of the per-record closure of `find_records`: decides
whether to keep scanning this record, skipping it (`None`) on a failed
derivation or index probe, and otherwise keeping it exactly when the
spent-status matches the filter. -/
def filterCheck (L : Ledger) (sk_tag : Nat) (f : RecordsFilter) (commitment : Nat) :
    Option Nat :=
  match f with
  | .all => some commitment
  | .slowSpent sk_sig =>
      match serialNumberOf L.crypto sk_sig commitment with
      | .ok sn =>
          match L.contains_serial_number sn with
          | .ok true => some commitment
          | .ok false => none
          | .error _ => none
      | .error _ => none
  | .slowUnspent sk_sig =>
      match serialNumberOf L.crypto sk_sig commitment with
      | .ok sn =>
          match L.contains_serial_number sn with
          | .ok true => none
          | .ok false => some commitment
          | .error _ => none
      | .error _ => none
  | .spent =>
      match tagOf L.crypto sk_tag commitment with
      | .ok t =>
          match L.contains_tag t with
          | .ok true => some commitment
          | .ok false => none
          | .error _ => none
      | .error _ => none
  | .unspent =>
      match tagOf L.crypto sk_tag commitment with
      | .ok t =>
          match L.contains_tag t with
          | .ok true => none
          | .ok false => some commitment
          | .error _ => none
      | .error _ => none

/-- The whole per-record closure of `find_records`: filter, then ownership
check, then decryption; every skip yields `None`, a kept record yields the
`(commitment, decrypted record)` pair. -/
def processRecord (L : Ledger) (V : ViewKeyEnv) (sk_tag : Nat) (f : RecordsFilter)
    (cr : Nat × Nat) : Option (Nat × Nat) :=
  match filterCheck L sk_tag f cr.1 with
  | none => none
  | some c =>
      if V.is_owner cr.2 then
        match V.decrypt cr.2 with
        | .ok d => some (c, d)
        | .error _ => none
      else none

/-- `Ledger::find_records(view_key, filter)`: derives `sk_tag` from the
graph key up front (failing the whole call if that derivation fails), then
lazily maps the per-record closure over the record source; the lazy
iterator is modelled by the finite list of the pairs it yields, in source
order. -/
def find_records (L : Ledger) (V : ViewKeyEnv) (f : RecordsFilter) :
    Except Unit (List (Nat × Nat)) :=
  match V.graph_key_sk_tag with
  | .error _ => .error ()
  | .ok sk_tag => .ok (L.records.filterMap (processRecord L V sk_tag f))

/-- The list of pairs a successful `find_records` call yields (empty for a
failed call), for stating set-level properties. -/
def yields (L : Ledger) (V : ViewKeyEnv) (f : RecordsFilter) : List (Nat × Nat) :=
  match find_records L V f with
  | .ok l => l
  | .error _ => []

/-- The balance stored inside a register value, when that value is a
record (for stating where an accepted balance ends up). -/
def recBalance : Option StackValue → Option Balance
  | some (.record rec) => some rec.balance
  | _ => none

/-- A per-record filter failure in `find_records`: the tag or serial-number
derivation for the record's commitment errors, or the corresponding
spent-index probe errors (the `All` filter performs neither). -/
def derivationOrLookupFails (L : Ledger) (sk_tag : Nat) (f : RecordsFilter) (c : Nat) : Prop :=
  match f with
  | .all => False
  | .slowSpent sk_sig =>
      serialNumberOf L.crypto sk_sig c = .error () ∨
      ∃ sn, serialNumberOf L.crypto sk_sig c = .ok sn ∧ L.contains_serial_number sn = .error ()
  | .slowUnspent sk_sig =>
      serialNumberOf L.crypto sk_sig c = .error () ∨
      ∃ sn, serialNumberOf L.crypto sk_sig c = .ok sn ∧ L.contains_serial_number sn = .error ()
  | .spent =>
      tagOf L.crypto sk_tag c = .error () ∨
      ∃ t, tagOf L.crypto sk_tag c = .ok t ∧ L.contains_tag t = .error ()
  | .unspent =>
      tagOf L.crypto sk_tag c = .error () ∨
      ∃ t, tagOf L.crypto sk_tag c = .ok t ∧ L.contains_tag t = .error ()

/-! ### Concrete fixtures

Small concrete programs, stacks and instructions used to evaluate the
embedded code at specific inputs. -/

/-- A program with one record type (name 0) declaring no entries. -/
def progZeroEntries : Program :=
  { interfaces := [],
    records := [(0, { ownerPublic := true, balancePublic := true, entries := [] })] }

/-- A fresh stack over `progZeroEntries`. -/
def stackZeroEntries : Stack := { program := progZeroEntries, registers := [] }

/-- A record cast with exactly the two mandatory inputs (a valid address
owner and a valid `u64` balance) targeting the zero-entry record type. -/
def castTwoIntoZeroEntries : Cast :=
  { operands := [.literal (.address 9), .literal (.u64 7)],
    destination := 0, value_type := .record 0 }

/-- A program with one record type (name 1) declaring two `u64` entries. -/
def progU64Entries : Program :=
  { interfaces := [],
    records := [(1, { ownerPublic := true, balancePublic := true,
                      entries := [(3, .pub (.literal .u64)), (4, .pub (.literal .u64))] })] }

/-- A fresh stack over `progU64Entries`. -/
def stackU64Entries : Stack := { program := progU64Entries, registers := [] }

/-- A record cast with two inputs (address owner, `u64` balance) targeting
the two-`u64`-entry record type, so the input and entry counts coincide. -/
def castTwoIntoU64Entries : Cast :=
  { operands := [.literal (.address 9), .literal (.u64 7)],
    destination := 0, value_type := .record 1 }

/-- A program with one interface (name 0) declaring a single `u64` member. -/
def progOneMember : Program :=
  { interfaces := [(0, { members := [(5, .literal .u64)] })], records := [] }

/-- A fresh stack over `progOneMember`. -/
def stackOneMember : Stack := { program := progOneMember, registers := [] }

/-- An interface cast with two inputs targeting the one-member interface. -/
def castTwoIntoOneMember : Cast :=
  { operands := [.literal (.u64 1), .literal (.u64 2)],
    destination := 0, value_type := .pub (.interface 0) }

/-- The record definition used for the balance boundary tests: public
owner, private balance, and entries shaped so that the entry loop accepts
the owner and balance inputs (an address entry then a `u64` entry). -/
def recordDefBalance : RecordDef :=
  { ownerPublic := true, balancePublic := false,
    entries := [(3, .pub (.literal .address)), (4, .priv (.literal .u64))] }

/-- A program holding `recordDefBalance` under name 2. -/
def progBalance : Program := { interfaces := [], records := [(2, recordDefBalance)] }

/-- A fresh stack over `progBalance`. -/
def stackBalance : Stack := { program := progBalance, registers := [] }

/-- A record cast carrying owner address 9 and balance `b` into the
balance-test record type. -/
def castBalance (b : Nat) : Cast :=
  { operands := [.literal (.address 9), .literal (.u64 b)],
    destination := 0, value_type := .record 2 }

/-- The stack expected after the successful balance-boundary cast of
`2^52 - 1`. -/
def stackBalanceOk : Stack :=
  { program := progBalance,
    registers := [(0, .record
      { owner := .pub 9,
        balance := .priv (.literal (.u64 (2 ^ 52 - 1))),
        entries := [(3, .pub (.literal (.address 9))),
                    (4, .priv (.literal (.u64 (2 ^ 52 - 1))))] })] }

/-- A two-operand cast used for the byte round-trip witness. -/
def castRoundtripDemo : Cast :=
  { operands := [.register 300, .literal (.u64 999)],
    destination := 4, value_type := .priv (.interface 12) }

/-- A zero-operand cast used for the encode-failure witness. -/
def castNoOperands : Cast :=
  { operands := [], destination := 4, value_type := .priv (.interface 12) }

/-- A deterministic, never-failing crypto environment for the ledger
fixtures (`hash_psd2` adds its inputs). -/
def cryptoDemo : CryptoEnv :=
  { hash_psd2 := fun a b => .ok (a + b),
    hash_to_group_psd2 := fun a b => .ok (a * 2 + b),
    hash_to_scalar_psd2 := fun a b => .ok (a + 2 * b),
    commit_bhp512 := fun _ s => .ok (s + 1),
    serial_number_domain := 3,
    group_mul := fun a b => a * b,
    mul_by_cofactor_x := fun a => a,
    to_bits_le := fun _ _ => [] }

/-- A demo ledger: records with commitments 1 and 2, tag 6 spent. -/
def ledgerDemo : Ledger :=
  { crypto := cryptoDemo,
    records := [(1, 10), (2, 20)],
    contains_serial_number := fun _ => .ok false,
    contains_tag := fun t => .ok (t = 6) }

/-- A demo view key environment: `sk_tag` 5, owning only record handle 10,
decryption adds one. -/
def viewDemo : ViewKeyEnv :=
  { graph_key_sk_tag := .ok 5,
    is_owner := fun r => r = 10,
    decrypt := fun r => .ok (r + 1) }

/-- A view key environment whose graph-key derivation fails. -/
def viewNoGraphKey : ViewKeyEnv :=
  { graph_key_sk_tag := .error (),
    is_owner := fun _ => true,
    decrypt := fun r => .ok r }

/-- A crypto environment whose `hash_psd2` (and hence tag derivation)
always fails. -/
def cryptoTagFail : CryptoEnv :=
  { cryptoDemo with hash_psd2 := fun _ _ => .error () }

/-- A one-record ledger whose tag derivation fails for every record. -/
def ledgerTagFail : Ledger :=
  { crypto := cryptoTagFail,
    records := [(1, 10)],
    contains_serial_number := fun _ => .ok false,
    contains_tag := fun _ => .ok false }

/-! ### Helper lemmas -/

/-- Formatting `Opcode::Cast` diverges at every recursion depth. -/
theorem opcodeFmt_cast_diverged : ∀ fuel, opcodeFmt fuel .cast = .diverged := by
  intro fuel
  induction fuel with
  | zero => rfl
  | succ fuel ih => simpa [opcodeFmt] using ih

/-- A register appended to a register file is found by a lookup that
previously failed. -/
theorem lookupId_append_self {α : Type} (l : List (Nat × α)) (k : Nat) (v : α)
    (h : lookupId l k = none) : lookupId (l ++ [(k, v)]) k = some v := by
  induction l with
  | nil => simp [lookupId]
  | cons p rest ih =>
      obtain ⟨k', v'⟩ := p
      by_cases hk : k' = k
      · simp [lookupId, hk] at h
      · simp [lookupId, hk] at h ⊢
        exact ih h

/-- Success of `evaluate` decomposes into a successful core computation and
a successful store. -/
theorem evaluate_ok_elim (c : Cast) (s s' : Stack) (h : evaluate c s = .ok s') :
    ∃ v, evalCore c s = .ok v ∧ s.store c.destination v = .ok s' := by
  unfold evaluate at h
  cases hc : evalCore c s with
  | error f =>
      rw [hc] at h
      cases f <;> simp at h
  | ok v =>
      rw [hc] at h
      dsimp only at h
      cases hs : s.store c.destination v with
      | error e => rw [hs] at h; simp at h
      | ok s'' => rw [hs] at h; cases h; exact ⟨v, rfl, hs⟩

/-- The member-building loop never succeeds on lists of unequal length. -/
theorem buildMembers_ne_ok (s : Stack) :
    ∀ (inputs : List StackValue) (members : List (Nat × PlaintextType))
      (acc : List (Nat × Plaintext)),
      inputs.length ≠ members.length →
      ∀ r, buildMembers s acc inputs members ≠ .ok r := by
  intro inputs
  induction inputs with
  | nil =>
      intro members acc h r
      cases members with
      | nil => simp at h
      | cons m ms => simp [buildMembers]
  | cons i is ih =>
      intro members acc h r
      cases members with
      | nil => simp [buildMembers]
      | cons m ms =>
          obtain ⟨mn, mt⟩ := m
          cases i with
          | record _ => simp [buildMembers]
          | plaintext p =>
              simp only [buildMembers]
              cases hm : s.matches_register (.plaintext p) (.plaintext mt) with
              | error e => simp
              | ok _ => exact ih ms _ (by simpa using h) r

/-- The entry-building loop never succeeds on lists of unequal length. -/
theorem buildEntries_ne_ok (s : Stack) :
    ∀ (inputs : List StackValue) (entries : List (Nat × EntryType))
      (acc : List (Nat × Entry)),
      inputs.length ≠ entries.length →
      ∀ r, buildEntries s acc inputs entries ≠ .ok r := by
  intro inputs
  induction inputs with
  | nil =>
      intro entries acc h r
      cases entries with
      | nil => simp at h
      | cons e es => simp [buildEntries]
  | cons i is ih =>
      intro entries acc h r
      cases entries with
      | nil => simp [buildEntries]
      | cons e es =>
          obtain ⟨en, et⟩ := e
          cases i with
          | record _ => simp [buildEntries]
          | plaintext p =>
              simp only [buildEntries]
              cases hm : s.matches_register (.plaintext p) (.plaintext et.plainType) with
              | error e0 => simp
              | ok _ => exact ih es _ (by simpa using h) r

/-- A successful balance initialisation forces the balance input to be a
`u64` literal with a clean high bit range, and fixes the wrapped value. -/
theorem balanceOf_ok_elim (rd : RecordDef) (v : StackValue) (bal : Balance)
    (h : balanceOf rd v = .ok bal) :
    ∃ b, v = .plaintext (.literal (.u64 b)) ∧ balanceBitsOk b = true ∧
      bal = (if rd.balancePublic then .pub b else .priv (.literal (.u64 b))) := by
  cases v with
  | record r => simp [balanceOf] at h
  | plaintext p =>
      cases p with
      | interface ms => simp [balanceOf] at h
      | literal l =>
          cases l with
          | address a => simp [balanceOf] at h
          | boolean b => simp [balanceOf] at h
          | field f => simp [balanceOf] at h
          | u64 b =>
              by_cases hb : balanceBitsOk b = true
              · refine ⟨b, rfl, hb, ?_⟩
                simp [balanceOf, hb] at h
                exact h.symm
              · simp [balanceOf, Bool.of_not_eq_true hb] at h

/-- Bits 52 and above of a `u64` value being clear bounds it below `2^52`. -/
theorem balanceBitsOk_lt (b : Nat) (h : balanceBitsOk b = true) (h64 : b < 2 ^ 64) :
    b < 2 ^ 52 := by
  have hbit : ∀ i, i < 12 → b.testBit (52 + i) = false := by
    intro i hi
    have := (List.all_eq_true.mp h) i (List.mem_range.mpr hi)
    simpa using this
  have hq : b >>> 52 = 0 := by
    apply Nat.zero_of_testBit_eq_false
    intro i
    rw [Nat.testBit_shiftRight]
    by_cases hi : i < 12
    · exact hbit i hi
    · apply Nat.testBit_eq_false_of_lt
      calc b < 2 ^ 64 := h64
        _ ≤ 2 ^ (52 + i) := Nat.pow_le_pow_right (by norm_num) (by omega)
  rw [Nat.shiftRight_eq_div_pow] at hq
  omega

/-- Decoding inverts the fuelled variable-length natural encoding. -/
theorem decode_encodeNatGo :
    ∀ (fuel n : Nat), n ≤ fuel → ∀ t, decodeNat (encodeNatGo fuel n ++ t) = some (n, t) := by
  intro fuel
  induction fuel with
  | zero =>
      intro n hn t
      have : n = 0 := Nat.le_zero.mp hn
      subst this
      simp [encodeNatGo, decodeNat]
  | succ fuel ih =>
      intro n hn t
      by_cases h : n < 128
      · simp [encodeNatGo, h, decodeNat]
      · have hdiv : n / 128 ≤ fuel := by
          have : n / 128 < n := Nat.div_lt_self (by omega) (by norm_num)
          omega
        have hge : ¬(n % 128 + 128 < 128) := by omega
        simp only [encodeNatGo, if_neg h, List.cons_append, decodeNat, if_neg hge,
          ih (n / 128) hdiv t]
        have : n % 128 + 128 - 128 + 128 * (n / 128) = n := by omega
        rw [this]

/-- Decoding inverts the variable-length natural encoding. -/
theorem decode_encodeNat (n : Nat) (t : List Nat) :
    decodeNat (encodeNat n ++ t) = some (n, t) :=
  decode_encodeNatGo n n (Nat.le_refl n) t

/-- Decoding inverts the literal encoding. -/
theorem decode_encodeLiteral (l : Literal) (t : List Nat) :
    decodeLiteral (encodeLiteral l ++ t) = some (l, t) := by
  cases l with
  | address a => simp [encodeLiteral, decodeLiteral, decode_encodeNat]
  | u64 v => simp [encodeLiteral, decodeLiteral, decode_encodeNat]
  | boolean b => cases b <;> simp [encodeLiteral, decodeLiteral]
  | field f => simp [encodeLiteral, decodeLiteral, decode_encodeNat]

/-- Decoding inverts the operand encoding. -/
theorem decode_encodeOperand (o : Operand) (t : List Nat) :
    decodeOperand (encodeOperand o ++ t) = some (o, t) := by
  cases o with
  | register r => simp [encodeOperand, decodeOperand, decode_encodeNat]
  | literal l => simp [encodeOperand, decodeOperand, decode_encodeLiteral]

/-- Reading back a concatenation of operand encodings yields the operands. -/
theorem decode_encodeOperands :
    ∀ (ops : List Operand) (t : List Nat),
      decodeOperands ops.length ((ops.map encodeOperand).flatten ++ t) = some (ops, t) := by
  intro ops
  induction ops with
  | nil => intro t; simp [decodeOperands]
  | cons o os ih =>
      intro t
      simp only [List.map_cons, List.flatten_cons, List.length_cons, List.append_assoc,
        decodeOperands, decode_encodeOperand o, ih t]

/-- Decoding inverts the plaintext-type encoding. -/
theorem decode_encodePlaintextType (pt : PlaintextType) (t : List Nat) :
    decodePlaintextType (encodePlaintextType pt ++ t) = some (pt, t) := by
  cases pt with
  | literal lt => cases lt <;> simp [encodePlaintextType, decodePlaintextType]
  | interface n => simp [encodePlaintextType, decodePlaintextType, decode_encodeNat]

/-- Decoding inverts the value-type encoding. -/
theorem decode_encodeValueType (vt : ValueType) (t : List Nat) :
    decodeValueType (encodeValueType vt ++ t) = some (vt, t) := by
  cases vt with
  | const pt => simp [encodeValueType, decodeValueType, decode_encodePlaintextType]
  | pub pt => simp [encodeValueType, decodeValueType, decode_encodePlaintextType]
  | priv pt => simp [encodeValueType, decodeValueType, decode_encodePlaintextType]
  | record n => simp [encodeValueType, decodeValueType, decode_encodeNat]

/-- The filter step can only hand back the record's own commitment. -/
theorem filterCheck_some_eq (L : Ledger) (sk : Nat) (f : RecordsFilter) (c c0 : Nat)
    (h : filterCheck L sk f c = some c0) : c0 = c := by
  cases f <;> simp only [filterCheck] at h <;> (repeat' split at h) <;>
    (first | (cases h; rfl) | simp_all)

/-- Characterisation of the per-record closure under the `All` filter. -/
theorem processRecord_all_iff (L : Ledger) (V : ViewKeyEnv) (sk : Nat)
    (cr x : Nat × Nat) :
    processRecord L V sk .all cr = some x ↔
      (V.is_owner cr.2 = true ∧ ∃ d, V.decrypt cr.2 = .ok d ∧ x = (cr.1, d)) := by
  simp only [processRecord, filterCheck]
  by_cases ho : V.is_owner cr.2 = true
  · cases hd : V.decrypt cr.2 <;> simp [ho, hd, eq_comm]
  · simp [ho]

/-- Characterisation of the per-record closure under the `Spent` filter,
when the tag derivation and index probe both succeed. -/
theorem processRecord_spent_iff (L : Ledger) (V : ViewKeyEnv) (sk : Nat)
    (cr x : Nat × Nat) (t : Nat) (b : Bool)
    (ht : tagOf L.crypto sk cr.1 = .ok t) (hb : L.contains_tag t = .ok b) :
    processRecord L V sk .spent cr = some x ↔
      (b = true ∧ V.is_owner cr.2 = true ∧ ∃ d, V.decrypt cr.2 = .ok d ∧ x = (cr.1, d)) := by
  simp only [processRecord, filterCheck, ht, hb]
  cases b with
  | false => simp
  | true =>
      by_cases ho : V.is_owner cr.2 = true
      · cases hd : V.decrypt cr.2 <;> simp [ho, hd, eq_comm]
      · simp [ho]

/-- Characterisation of the per-record closure under the `Unspent` filter,
when the tag derivation and index probe both succeed. -/
theorem processRecord_unspent_iff (L : Ledger) (V : ViewKeyEnv) (sk : Nat)
    (cr x : Nat × Nat) (t : Nat) (b : Bool)
    (ht : tagOf L.crypto sk cr.1 = .ok t) (hb : L.contains_tag t = .ok b) :
    processRecord L V sk .unspent cr = some x ↔
      (b = false ∧ V.is_owner cr.2 = true ∧ ∃ d, V.decrypt cr.2 = .ok d ∧ x = (cr.1, d)) := by
  simp only [processRecord, filterCheck, ht, hb]
  cases b with
  | true => simp
  | false =>
      by_cases ho : V.is_owner cr.2 = true
      · cases hd : V.decrypt cr.2 <;> simp [ho, hd, eq_comm]
      · simp [ho]

/-- Membership in the yielded list, given a successful graph-key
derivation. -/
theorem mem_yields_iff (L : Ledger) (V : ViewKeyEnv) (sk : Nat) (f : RecordsFilter)
    (hg : V.graph_key_sk_tag = .ok sk) (x : Nat × Nat) :
    x ∈ yields L V f ↔ ∃ cr, cr ∈ L.records ∧ processRecord L V sk f cr = some x := by
  unfold yields find_records
  rw [hg]
  exact List.mem_filterMap

/-! ### Claim theorems -/

/-- C1: contrary to the claim that a record cast pairs only the inputs from
index 2 onward with the record type's declared entries and never re-checks
the owner and balance inputs against entry types, the entry loop of
`Cast::evaluate` iterates over all inputs: a cast of two valid inputs
(address owner, in-range `u64` balance) into a record type with zero
declared entries — which passes the owner and balance checks — panics at
the `zip_eq` (two leftover inputs against zero entries), and a cast of the
same two valid inputs into a record type whose two entries are both `u64`
fails with a type-mismatch error because the owner (address) input is
re-checked against the first declared `u64` entry type. -/
theorem c1_record_cast_entry_loop_includes_owner_balance :
    evaluate castTwoIntoZeroEntries stackZeroEntries = .panicked stackZeroEntries ∧
    evaluate castTwoIntoU64Entries stackU64Entries = .err .typeMismatchError stackU64Entries :=
  ⟨rfl, rfl⟩

/-- C2: contrary to the claim that `Cast::output_type` pairs the input
types with the record's declared entry types only and leaves the first two
input types (intended owner and balance) unchecked, the record arm zips the
declared entries against all input types: with a zero-entry record type and
two input types (matching the operand count) the zip panics instead of
returning the record register type, and with a two-`u64`-entry record type
the first input type (an address, the intended owner) is type-checked
against the first entry type and rejected with a type-mismatch error. -/
theorem c2_output_type_record_checks_all_input_types :
    output_type castTwoIntoZeroEntries progZeroEntries
      [.plaintext (.literal .address), .plaintext (.literal .u64)] = .error .panicked ∧
    output_type castTwoIntoU64Entries progU64Entries
      [.plaintext (.literal .address), .plaintext (.literal .u64)] =
        .error (.err .typeMismatchError) :=
  ⟨rfl, rfl⟩

/-- C3 (counterexample): an interface cast whose two loaded inputs face a
single declared member reaches the pairing step and panics at the `zip_eq`;
it does not return an `ArityError` as a result value, refuting the claim
that every such length mismatch is reported as an `ArityError`. -/
theorem c3_arity_mismatch_panics_not_arity_error :
    evaluate castTwoIntoOneMember stackOneMember = .panicked stackOneMember ∧
    evaluate castTwoIntoOneMember stackOneMember ≠
      .err .arityError stackOneMember :=
  ⟨rfl, fun h => EvalResult.noConfusion h⟩

/-- C3 (amended): when the pairing step of `Cast::evaluate` is reached with
an input count different from the declared member count (interface target)
or entry count (record target), the evaluation never succeeds — it either
fails on an earlier pair or panics at the `zip_eq` when one side runs out —
so a mismatch is never silently truncated to the shorter list. -/
theorem c3_amended_arity_mismatch_never_succeeds
    (c : Cast) (s : Stack) (inputs : List StackValue)
    (hload : loadAll s c.operands = .ok inputs) :
    (∀ iname idef,
        (c.value_type = .const (.interface iname) ∨
         c.value_type = .pub (.interface iname) ∨
         c.value_type = .priv (.interface iname)) →
        inputs ≠ [] →
        s.program.get_interface iname = .ok idef →
        inputs.length ≠ idef.members.length →
        ∀ s', evaluate c s ≠ .ok s') ∧
    (∀ rname rd,
        c.value_type = .record rname →
        2 ≤ inputs.length →
        s.program.get_record rname = .ok rd →
        inputs.length ≠ rd.entries.length →
        ∀ s', evaluate c s ≠ .ok s') := by
  constructor
  · intro iname idef hvt hne hget hlen s' hok
    obtain ⟨v, hcore, _⟩ := evaluate_ok_elim c s s' hok
    unfold evalCore at hcore
    rw [hload] at hcore
    have hempty : inputs.isEmpty = false := by
      cases inputs with
      | nil => exact absurd rfl hne
      | cons a as => rfl
    rcases hvt with h | h | h <;> rw [h] at hcore <;> dsimp only at hcore <;>
      · unfold castPlaintext at hcore
        dsimp only at hcore
        rw [if_neg (show ¬(inputs.isEmpty = true) by simp [hempty])] at hcore
        rw [hget] at hcore
        dsimp only at hcore
        cases hb : buildMembers s [] inputs idef.members with
        | error f => rw [hb] at hcore; simp at hcore
        | ok ms => exact buildMembers_ne_ok s inputs idef.members [] hlen ms hb
  · intro rname rd hvt h2 hget hlen s' hok
    obtain ⟨v, hcore, _⟩ := evaluate_ok_elim c s s' hok
    unfold evalCore at hcore
    rw [hload] at hcore
    rw [hvt] at hcore
    dsimp only at hcore
    obtain ⟨i0, i1, rest, hshape⟩ : ∃ i0 i1 rest, inputs = i0 :: i1 :: rest := by
      cases inputs with
      | nil => simp at h2
      | cons a as =>
          cases as with
          | nil => simp at h2
          | cons b bs => exact ⟨a, b, bs, rfl⟩
    subst hshape
    unfold castRecord at hcore
    dsimp only at hcore
    rw [hget] at hcore
    dsimp only at hcore
    cases how : ownerOf rd i0 with
    | error f => rw [how] at hcore; simp at hcore
    | ok ow =>
        rw [how] at hcore
        dsimp only at hcore
        cases hbal : balanceOf rd i1 with
        | error f => rw [hbal] at hcore; simp at hcore
        | ok bal =>
            rw [hbal] at hcore
            dsimp only at hcore
            cases hb : buildEntries s [] (i0 :: i1 :: rest) rd.entries with
            | error f => rw [hb] at hcore; simp at hcore
            | ok es => exact buildEntries_ne_ok s _ rd.entries [] hlen es hb

/-- C3 (amended, witness): the amended statement applied to the concrete
two-input cast into the one-member interface. -/
theorem c3_amended_arity_mismatch_never_succeeds_witness :
    evaluate castTwoIntoOneMember stackOneMember ≠ .ok stackOneMember :=
  (c3_amended_arity_mismatch_never_succeeds castTwoIntoOneMember stackOneMember
      [.plaintext (.literal (.u64 1)), .plaintext (.literal (.u64 2))] rfl).1
    0 { members := [(5, .literal .u64)] }
    (Or.inr (Or.inl rfl)) (List.cons_ne_nil _ _) rfl (by decide) stackOneMember

/-- C4: contrary to the claim that formatting a cast instruction with an
in-bounds operand count terminates and produces
`cast <operands> into <dst> as <type>`, the `Display` implementation first
formats the opcode, and `Display for Opcode::Cast` re-enters itself
(`write!(f, "{}", *self)` formats the very same `Opcode` value), so the
formatting diverges at every recursion depth and never produces a string. -/
theorem c4_display_cast_diverges (fuel maxOperands : Nat) (c : Cast)
    (h1 : c.operands.length ≠ 0) (h2 : c.operands.length ≤ maxOperands) :
    castFmt fuel maxOperands c = .diverged := by
  unfold castFmt
  rw [if_neg (by omega), opcodeFmt_cast_diverged]

/-- C4 (witness): the divergence theorem applied to a concrete one-cast
instance at recursion depth 1000. -/
theorem c4_display_cast_diverges_witness :
    castFmt 1000 8 castTwoIntoZeroEntries = .diverged :=
  c4_display_cast_diverges 1000 8 castTwoIntoZeroEntries (by decide) (by decide)

/-- C5: every failing evaluation of a cast instruction leaves the stack
exactly as it was — all loads and checks precede the single final store, so
no register is written on any error or panic path. -/
theorem c5_no_partial_write_on_failure (c : Cast) (s : Stack) :
    match evaluate c s with
    | .ok _ => True
    | .err _ s' => s' = s
    | .panicked s' => s' = s := by
  unfold evaluate
  cases hc : evalCore c s with
  | error f => cases f <;> simp
  | ok v =>
      dsimp only
      cases hs : s.store c.destination v with
      | error e => simp
      | ok s'' => simp

/-- C10: when the graph key (and hence `sk_tag`) cannot be derived from the
view key, `find_records` fails immediately and yields nothing, for every
filter — including `All`, `SlowSpent` and `SlowUnspent`, which never use
`sk_tag`. -/
theorem c10_graph_key_failure_aborts_every_filter
    (L : Ledger) (V : ViewKeyEnv) (f : RecordsFilter)
    (hg : V.graph_key_sk_tag = .error ()) :
    find_records L V f = .error () := by
  unfold find_records
  rw [hg]

/-- C10 (witness): the abort theorem applied to the demo ledger with a
failing graph-key derivation, under the `All` filter. -/
theorem c10_graph_key_failure_aborts_every_filter_witness :
    find_records ledgerDemo viewNoGraphKey .all = .error () :=
  c10_graph_key_failure_aborts_every_filter ledgerDemo viewNoGraphKey .all rfl

/-- C7: for an operand count in `[1, maxOperands]` (with the count fitting
the one-byte field), encoding a cast succeeds and decoding the produced
bytes returns the original instruction with no bytes left over; for a count
of zero or above the bound, encoding fails before writing anything, and any
byte stream whose leading count byte is zero or above the bound is rejected
by the decoder. -/
theorem c7_bytes_roundtrip (maxOperands : Nat) (c : Cast) (hmax : maxOperands ≤ 255) :
    (1 ≤ c.operands.length → c.operands.length ≤ maxOperands →
        writeThenRead maxOperands c = .ok (c, [])) ∧
    (c.operands.length = 0 ∨ c.operands.length > maxOperands →
        write_le maxOperands c = .error ()) ∧
    (∀ b rest, b = 0 ∨ b > maxOperands → read_le maxOperands (b :: rest) = .error ()) := by
  refine ⟨?_, ?_, ?_⟩
  · intro h1 h2
    have hne : ¬(c.operands.length = 0 ∨ c.operands.length > maxOperands) := by omega
    unfold writeThenRead write_le
    rw [if_neg hne]
    dsimp only
    have hmod : c.operands.length % 256 = c.operands.length :=
      Nat.mod_eq_of_lt (by omega)
    rw [hmod]
    simp only [read_le]
    rw [if_neg hne]
    rw [List.append_assoc, decode_encodeOperands]
    dsimp only
    rw [decode_encodeNat]
    dsimp only
    rw [show encodeValueType c.value_type = encodeValueType c.value_type ++ [] from
          (List.append_nil _).symm,
        decode_encodeValueType]
  · intro h
    unfold write_le
    rw [if_pos h]
  · intro b rest h
    simp only [read_le]
    rw [if_pos h]

/-- C7 (witness): the round-trip theorem applied at bound 8 to a concrete
two-operand cast, to the zero-operand cast, and to a byte stream with a
zero count byte. -/
theorem c7_bytes_roundtrip_witness :
    writeThenRead 8 castRoundtripDemo = .ok (castRoundtripDemo, []) ∧
    write_le 8 castNoOperands = .error () ∧
    read_le 8 [0, 7, 7] = .error () :=
  ⟨(c7_bytes_roundtrip 8 castRoundtripDemo (by decide)).1 (by decide) (by decide),
   (c7_bytes_roundtrip 8 castNoOperands (by decide)).2.1 (Or.inl rfl),
   (c7_bytes_roundtrip 8 castNoOperands (by decide)).2.2 0 [7, 7] (Or.inl rfl)⟩

/-- C8: a record cast accepts its balance input (`inputs[1]`) only as a
`u64` literal whose bits 52..63 are all zero — equivalently, for a `u64`
value, one strictly below `2^52` — and stores the accepted value unchanged
under the record type's declared balance visibility: every successful
record-cast evaluation forces the bit check and deposits the wrapped
balance in the destination register; the concrete boundary cast of `2^52`
fails with an invalid-value error while `2^52 - 1` succeeds. -/
theorem c8_balance_check :
    (∀ (c : Cast) (s s' : Stack) (rname : Nat) (inputs : List StackValue) (b : Nat)
       (rd : RecordDef),
        c.value_type = .record rname →
        evaluate c s = .ok s' →
        loadAll s c.operands = .ok inputs →
        inputs[1]? = some (.plaintext (.literal (.u64 b))) →
        s.program.get_record rname = .ok rd →
        balanceBitsOk b = true ∧
        (b < 2 ^ 64 → b < 2 ^ 52) ∧
        recBalance (lookupId s'.registers c.destination) =
          some (if rd.balancePublic then .pub b else .priv (.literal (.u64 b)))) ∧
    evaluate (castBalance (2 ^ 52)) stackBalance = .err .invalidValueError stackBalance ∧
    evaluate (castBalance (2 ^ 52 - 1)) stackBalance = .ok stackBalanceOk := by
  refine ⟨?_, rfl, rfl⟩
  intro c s s' rname inputs b rd hvt hok hload hidx hrd
  obtain ⟨v, hcore, hstore⟩ := evaluate_ok_elim c s s' hok
  unfold evalCore at hcore
  rw [hload, hvt] at hcore
  dsimp only at hcore
  cases inputs with
  | nil => simp at hidx
  | cons i0 tl =>
      cases tl with
      | nil => simp at hidx
      | cons i1 rest =>
          simp only [List.getElem?_cons_succ, List.getElem?_cons_zero,
            Option.some.injEq] at hidx
          unfold castRecord at hcore
          dsimp only at hcore
          rw [hrd] at hcore
          dsimp only at hcore
          cases how : ownerOf rd i0 with
          | error f => rw [how] at hcore; simp at hcore
          | ok ow =>
              rw [how] at hcore
              dsimp only at hcore
              cases hbv : balanceOf rd i1 with
              | error f => rw [hbv] at hcore; simp at hcore
              | ok bal =>
                  rw [hbv] at hcore
                  dsimp only at hcore
                  obtain ⟨b', hi1', hbits', hbal'⟩ := balanceOf_ok_elim rd i1 bal hbv
                  rw [hi1'] at hidx
                  simp only [StackValue.plaintext.injEq, Plaintext.literal.injEq,
                    Literal.u64.injEq] at hidx
                  subst hidx
                  refine ⟨hbits', fun h64 => balanceBitsOk_lt b' hbits' h64, ?_⟩
                  cases hents : buildEntries s [] (i0 :: i1 :: rest) rd.entries with
                  | error f => rw [hents] at hcore; simp at hcore
                  | ok es =>
                      rw [hents] at hcore
                      dsimp only at hcore
                      cases hnew : recordNew ow bal es with
                      | error e => rw [hnew] at hcore; simp at hcore
                      | ok rec =>
                          rw [hnew] at hcore
                          dsimp only at hcore
                          cases hcore
                          have hbalance : rec.balance = bal := by
                            unfold recordNew at hnew
                            split at hnew
                            · cases hnew; rfl
                            · simp at hnew
                          unfold Stack.store at hstore
                          cases hlook : lookupId s.registers c.destination with
                          | some w => rw [hlook] at hstore; simp at hstore
                          | none =>
                              rw [hlook] at hstore
                              dsimp only at hstore
                              cases hstore
                              rw [lookupId_append_self s.registers c.destination _ hlook]
                              simp [recBalance, hbalance, hbal']

/-- C8 (witness): the balance theorem applied to the concrete successful
cast of `2^52 - 1`, showing the bit check and the privately wrapped stored
balance. -/
theorem c8_balance_check_witness :
    balanceBitsOk (2 ^ 52 - 1) = true ∧
    recBalance (lookupId stackBalanceOk.registers 0) =
      some (.priv (.literal (.u64 (2 ^ 52 - 1)))) :=
  have h := (c8_balance_check).1 (castBalance (2 ^ 52 - 1)) stackBalance stackBalanceOk 2
    [.plaintext (.literal (.address 9)), .plaintext (.literal (.u64 (2 ^ 52 - 1)))]
    (2 ^ 52 - 1) recordDefBalance rfl (c8_balance_check).2.2 rfl rfl rfl
  ⟨h.1, h.2.2⟩

/-- C6: a per-record tag or serial-number derivation failure, or a
spent-index lookup failure, excludes only that record from the yielded
sequence: the scan still succeeds as a whole and the result is exactly the
processing of all records before and all records after the failing one. -/
theorem c6_per_record_failure_skips_only_that_record
    (L : Ledger) (V : ViewKeyEnv) (sk : Nat) (f : RecordsFilter)
    (pre post : List (Nat × Nat)) (c r : Nat)
    (hg : V.graph_key_sk_tag = .ok sk)
    (hrecs : L.records = pre ++ (c, r) :: post)
    (hfail : derivationOrLookupFails L sk f c) :
    find_records L V f =
      .ok (pre.filterMap (processRecord L V sk f) ++
           post.filterMap (processRecord L V sk f)) := by
  have hfc : filterCheck L sk f c = none := by
    cases f <;> simp only [derivationOrLookupFails] at hfail
    case slowSpent sk_sig =>
      rcases hfail with h | ⟨sn, hsn, hcs⟩
      · simp [filterCheck, h]
      · simp [filterCheck, hsn, hcs]
    case slowUnspent sk_sig =>
      rcases hfail with h | ⟨sn, hsn, hcs⟩
      · simp [filterCheck, h]
      · simp [filterCheck, hsn, hcs]
    case spent =>
      rcases hfail with h | ⟨t, ht, hct⟩
      · simp [filterCheck, h]
      · simp [filterCheck, ht, hct]
    case unspent =>
      rcases hfail with h | ⟨t, ht, hct⟩
      · simp [filterCheck, h]
      · simp [filterCheck, ht, hct]
  have hnone : processRecord L V sk f (c, r) = none := by
    unfold processRecord
    rw [hfc]
  unfold find_records
  rw [hg, hrecs]
  dsimp only
  rw [List.filterMap_append]
  simp [List.filterMap_cons, hnone]

/-- C6 (witness): the skip theorem applied to a one-record ledger whose tag
derivation fails, under the `Spent` filter: the scan succeeds and yields
nothing. -/
theorem c6_per_record_failure_skips_only_that_record_witness :
    find_records ledgerTagFail viewDemo .spent = .ok [] :=
  c6_per_record_failure_skips_only_that_record ledgerTagFail viewDemo 5 .spent
    [] [] 1 10 rfl rfl (Or.inl rfl)

/-- C9: when the graph key derives and every record's tag derivation and
tag-index probe succeed, `find_records` succeeds for the `Spent`, `Unspent`
and `All` filters, the `Spent` and `Unspent` yields are disjoint, their
union is exactly the `All` yield, and the `All` filter already excludes
every record the view key does not own (so the union equals `All`
restricted to owned records). -/
theorem c9_spent_unspent_partition_all
    (L : Ledger) (V : ViewKeyEnv) (sk : Nat)
    (hg : V.graph_key_sk_tag = .ok sk)
    (hok : ∀ cr, cr ∈ L.records →
      ∃ t b, tagOf L.crypto sk cr.1 = .ok t ∧ L.contains_tag t = .ok b) :
    find_records L V .spent = .ok (yields L V .spent) ∧
    find_records L V .unspent = .ok (yields L V .unspent) ∧
    find_records L V .all = .ok (yields L V .all) ∧
    (∀ x, x ∈ yields L V .spent → x ∉ yields L V .unspent) ∧
    (∀ x, x ∈ yields L V .all ↔ (x ∈ yields L V .spent ∨ x ∈ yields L V .unspent)) ∧
    (∀ cr, cr ∈ L.records → V.is_owner cr.2 = false →
      processRecord L V sk .all cr = none) := by
  refine ⟨by simp [yields, find_records, hg], by simp [yields, find_records, hg],
    by simp [yields, find_records, hg], ?_, ?_, ?_⟩
  · intro x hxS hxU
    rw [mem_yields_iff L V sk .spent hg] at hxS
    rw [mem_yields_iff L V sk .unspent hg] at hxU
    obtain ⟨cr, hcr, hproc⟩ := hxS
    obtain ⟨cr', hcr', hproc'⟩ := hxU
    obtain ⟨t, b, ht, hb⟩ := hok cr hcr
    obtain ⟨t', b', ht', hb'⟩ := hok cr' hcr'
    rw [processRecord_spent_iff L V sk cr x t b ht hb] at hproc
    rw [processRecord_unspent_iff L V sk cr' x t' b' ht' hb'] at hproc'
    obtain ⟨hbt, _, d, _, hx⟩ := hproc
    obtain ⟨hbf, _, d', _, hx'⟩ := hproc'
    subst hbt hbf
    have hc1 : cr.1 = cr'.1 := by
      have h1 : x.1 = cr.1 := by rw [hx]
      have h2 : x.1 = cr'.1 := by rw [hx']
      omega
    rw [hc1, ht'] at ht
    have htt : t' = t := Except.ok.inj ht
    rw [htt, hb] at hb'
    exact Bool.noConfusion (Except.ok.inj hb')
  · intro x
    constructor
    · intro hxA
      rw [mem_yields_iff L V sk .all hg] at hxA
      obtain ⟨cr, hcr, hproc⟩ := hxA
      rw [processRecord_all_iff L V sk cr x] at hproc
      obtain ⟨hown, d, hd, hx⟩ := hproc
      obtain ⟨t, b, ht, hb⟩ := hok cr hcr
      cases b with
      | true =>
          left
          rw [mem_yields_iff L V sk .spent hg]
          exact ⟨cr, hcr,
            (processRecord_spent_iff L V sk cr x t true ht hb).mpr
              ⟨rfl, hown, d, hd, hx⟩⟩
      | false =>
          right
          rw [mem_yields_iff L V sk .unspent hg]
          exact ⟨cr, hcr,
            (processRecord_unspent_iff L V sk cr x t false ht hb).mpr
              ⟨rfl, hown, d, hd, hx⟩⟩
    · intro h
      rcases h with hxS | hxU
      · rw [mem_yields_iff L V sk .spent hg] at hxS
        obtain ⟨cr, hcr, hproc⟩ := hxS
        obtain ⟨t, b, ht, hb⟩ := hok cr hcr
        rw [processRecord_spent_iff L V sk cr x t b ht hb] at hproc
        obtain ⟨_, hown, d, hd, hx⟩ := hproc
        rw [mem_yields_iff L V sk .all hg]
        exact ⟨cr, hcr, (processRecord_all_iff L V sk cr x).mpr ⟨hown, d, hd, hx⟩⟩
      · rw [mem_yields_iff L V sk .unspent hg] at hxU
        obtain ⟨cr, hcr, hproc⟩ := hxU
        obtain ⟨t, b, ht, hb⟩ := hok cr hcr
        rw [processRecord_unspent_iff L V sk cr x t b ht hb] at hproc
        obtain ⟨_, hown, d, hd, hx⟩ := hproc
        rw [mem_yields_iff L V sk .all hg]
        exact ⟨cr, hcr, (processRecord_all_iff L V sk cr x).mpr ⟨hown, d, hd, hx⟩⟩
  · intro cr hcr hnotown
    simp [processRecord, filterCheck, hnotown]

/-- C9 (witness): the partition theorem applied to the demo ledger (two
records, one spent, one unowned): `find_records` succeeds for `Spent` and
the union property holds at the yielded pair `(1, 11)`. -/
theorem c9_spent_unspent_partition_all_witness :
    find_records ledgerDemo viewDemo .spent = .ok (yields ledgerDemo viewDemo .spent) ∧
    ((1, 11) ∈ yields ledgerDemo viewDemo .all ↔
      ((1, 11) ∈ yields ledgerDemo viewDemo .spent ∨
       (1, 11) ∈ yields ledgerDemo viewDemo .unspent)) := by
  have h := c9_spent_unspent_partition_all ledgerDemo viewDemo 5 rfl (by
    intro cr hcr
    simp only [ledgerDemo, List.mem_cons, List.not_mem_nil, or_false] at hcr
    rcases hcr with h | h <;> subst h
    · exact ⟨6, true, rfl, rfl⟩
    · exact ⟨7, false, rfl, rfl⟩)
  exact ⟨h.1, h.2.2.2.2.1 (1, 11)⟩

end SnarkVM
